import Mathlib

/-!
Verification of the output-parsing and diagnostic-mapping pipeline of the
perlcritic language server.

The development shallowly embeds the two classes of the server's core —
`Critique` (one parsed finding, `Critique.ts`) and `Output` (the whole
parse result, `Output.ts`) — together with the diagnostics-construction
loop of `validateTextDocument` (`server.ts`).  JavaScript strings are
modelled as Lean `String`/`List Char`, JavaScript numbers produced by
`parseInt` as exact `Int` (with `none` standing for `NaN`/`undefined`),
and a thrown `TypeError` as `Except.error`.
-/

namespace Perlcritic

/-! ## JavaScript string primitives -/

/-- The character set removed by `String.prototype.trim` (ECMAScript
WhiteSpace and LineTerminator code points), tested on the code point. -/
def wsB (v : Nat) : Bool :=
  v = 0x09 || v = 0x0a || v = 0x0b || v = 0x0c || v = 0x0d || v = 0x20 ||
  v = 0xa0 || v = 0x1680 || (0x2000 ≤ v && v ≤ 0x200a) ||
  v = 0x2028 || v = 0x2029 || v = 0x202f || v = 0x205f || v = 0x3000 || v = 0xfeff

def isJsWS (c : Char) : Bool := wsB c.toNat

/-- `String.prototype.trim`: drop JS whitespace from both ends. -/
def jsTrimL (l : List Char) : List Char :=
  ((l.dropWhile isJsWS).reverse.dropWhile isJsWS).reverse

def jsTrimStr (s : String) : String := (jsTrimL s.data).asString

/-- `outputStr.split(/\[\[END\]\]/)`: split on each occurrence of the
literal end-of-record marker `[[END]]`, leftmost first, non-overlapping. -/
def splitEnd : List Char → List (List Char)
  | '[' :: '[' :: 'E' :: 'N' :: 'D' :: ']' :: ']' :: rest => [] :: splitEnd rest
  | c :: cs =>
    match splitEnd cs with
    | h :: t => (c :: h) :: t
    | [] => [[c]]
  | [] => [[]]

/-- `outputText.split(/\[>\]/)`: split on the literal field separator `[>]`. -/
def splitGt : List Char → List (List Char)
  | '[' :: '>' :: ']' :: rest => [] :: splitGt rest
  | c :: cs =>
    match splitGt cs with
    | h :: t => (c :: h) :: t
    | [] => [[c]]
  | [] => [[]]

def splitEndS (s : String) : List String := (splitEnd s.data).map List.asString

def splitGtS (s : String) : List String := (splitGt s.data).map List.asString

/-! ## JavaScript numeric parsing -/

def isDigitCh (c : Char) : Bool := 0x30 ≤ c.toNat && c.toNat ≤ 0x39

def isHexCh (c : Char) : Bool :=
  (0x30 ≤ c.toNat && c.toNat ≤ 0x39) || (0x41 ≤ c.toNat && c.toNat ≤ 0x46) ||
  (0x61 ≤ c.toNat && c.toNat ≤ 0x66)

def hexVal (c : Char) : Nat :=
  if 0x30 ≤ c.toNat && c.toNat ≤ 0x39 then c.toNat - 0x30
  else if 0x41 ≤ c.toNat && c.toNat ≤ 0x46 then c.toNat - 0x37
  else c.toNat - 0x57

def natOfDec (l : List Char) : Nat := l.foldl (fun a c => a * 10 + (c.toNat - 0x30)) 0

def natOfHex (l : List Char) : Nat := l.foldl (fun a c => a * 16 + hexVal c) 0

/-- `parseInt(s)` (radix unspecified): strip leading whitespace, optional
sign, then either a `0x`/`0X` hexadecimal digit run or a decimal digit
run; `none` models `NaN` (no digits).  Idealized to exact integers. -/
def jsParseInt (s : String) : Option Int :=
  let t := s.data.dropWhile isJsWS
  let (sgn, t1) : Int × List Char :=
    match t with
    | '-' :: r => (-1, r)
    | '+' :: r => (1, r)
    | _ => (1, t)
  match t1 with
  | '0' :: x :: rest =>
    if x = 'x' ∨ x = 'X' then
      let run := rest.takeWhile isHexCh
      if run = [] then none else some (sgn * (natOfHex run : Int))
    else
      some (sgn * (natOfDec (t1.takeWhile isDigitCh) : Int))
  | _ =>
    let run := t1.takeWhile isDigitCh
    if run = [] then none else some (sgn * (natOfDec run : Int))

/-- Overflow threshold of IEEE-754 double rounding: a value of magnitude
at least `2^1024 - 2^970` rounds to infinity. -/
def dblInfThreshold : Nat := 2 ^ 1024 - 2 ^ 970

/-- Whether the exact rational `m * 10^ex` is below the double overflow
threshold (so `Number(...)` would yield a finite value). -/
def decMagFinite (m : Nat) (ex : Int) : Bool :=
  if 0 ≤ ex then m * 10 ^ ex.toNat < dblInfThreshold
  else m < dblInfThreshold * 10 ^ ex.natAbs

/-- Parse the decimal part of a `StringNumericLiteral` after the optional
sign: `DecimalDigits . DecimalDigits? ExponentPart?`, `. DecimalDigits
ExponentPart?`, or `DecimalDigits ExponentPart?`; the whole list must be
consumed.  Returns the significand digits and the base-10 exponent. -/
def decLitVal (l : List Char) : Option (Nat × Int) :=
  let intPart := l.takeWhile isDigitCh
  let r1 := l.dropWhile isDigitCh
  let (fracPart, r2) : List Char × List Char :=
    match r1 with
    | '.' :: r => (r.takeWhile isDigitCh, r.dropWhile isDigitCh)
    | _ => ([], r1)
  if intPart = [] ∧ fracPart = [] then none
  else
    match r2 with
    | [] => some (natOfDec (intPart ++ fracPart), -(fracPart.length : Int))
    | e :: r3 =>
      if e = 'e' ∨ e = 'E' then
        let (esgn, r4) : Int × List Char :=
          match r3 with
          | '-' :: r => (-1, r)
          | '+' :: r => (1, r)
          | _ => (1, r3)
        let erun := r4.takeWhile isDigitCh
        if erun = [] ∨ r4.dropWhile isDigitCh ≠ [] then none
        else some (natOfDec (intPart ++ fracPart),
                   esgn * (natOfDec erun : Int) - (fracPart.length : Int))
      else none

/-- Whether `ToNumber` applied to the (already trimmed, non-empty) text
yields a finite value: a fully-consumed numeric literal whose magnitude
stays below the double overflow threshold.  `Infinity` forms and
unparsable text (`NaN`) yield `false`. -/
def finiteLit (l : List Char) : Bool :=
  match l with
  | '0' :: x :: rest =>
    if x = 'x' ∨ x = 'X' then
      rest ≠ [] && rest.all isHexCh && decide (natOfHex rest < dblInfThreshold)
    else if x = 'o' ∨ x = 'O' then
      rest ≠ [] && rest.all (fun c => 0x30 ≤ c.toNat && c.toNat ≤ 0x37) &&
        decide (rest.foldl (fun a c => a * 8 + (c.toNat - 0x30)) 0 < dblInfThreshold)
    else if x = 'b' ∨ x = 'B' then
      rest ≠ [] && rest.all (fun c => c = '0' ∨ c = '1') &&
        decide (rest.foldl (fun a c => a * 2 + (c.toNat - 0x30)) 0 < dblInfThreshold)
    else
      match decLitVal l with
      | some (m, ex) => decMagFinite m ex
      | none => false
  | _ =>
    let (body, _sgn) : List Char × Int :=
      match l with
      | '-' :: r => (r, -1)
      | '+' :: r => (r, 1)
      | _ => (l, 1)
    if body = ['I', 'n', 'f', 'i', 'n', 'i', 't', 'y'] then false
    else
      match decLitVal body with
      | some (m, ex) => decMagFinite m ex
      | none => false

/-- `isFinite(s)` for a string argument: `ToNumber(s)` is neither `NaN`
nor infinite.  The empty/whitespace-only string coerces to `0`. -/
def jsFiniteNum (s : String) : Bool :=
  let t := jsTrimL s.data
  if t = [] then true else finiteLit t

/-- `Critique.isNumber(n)` = `!isNaN(parseInt(n)) && isFinite(n)`;
`n` is a field that may be `undefined` (`none`). -/
def isNumber (n : Option String) : Bool :=
  match n with
  | none => false
  | some s => (jsParseInt s).isSome && jsFiniteNum s

/-! ## The ANSI-escape stripping regex

`Output.ts` removes ANSI escape codes with
`replace(/[\u001b\u009b][[()#;?]*(?:[0-9]{1,4}(?:;[0-9]{0,4})*)?[0-9A-ORZcf-nqry=><]/g, "")`.
The matcher below reproduces the regex's backtracking search at one
position: candidate remainders are produced in the engine's preference
order (greedy quantifiers, longest first) and the first candidate whose
next character is a final byte wins. -/

/-- First character class `[\u001b\u009b]`. -/
def isIntro (c : Char) : Bool := c.toNat = 0x1b || c.toNat = 0x9b

/-- Second character class `[[()#;?]`. -/
def isOpener (c : Char) : Bool :=
  c.toNat = 0x5b || c.toNat = 0x28 || c.toNat = 0x29 ||
  c.toNat = 0x23 || c.toNat = 0x3b || c.toNat = 0x3f

/-- Final character class `[0-9A-ORZcf-nqry=><]`. -/
def isFinal (c : Char) : Bool :=
  (0x30 ≤ c.toNat && c.toNat ≤ 0x39) || (0x41 ≤ c.toNat && c.toNat ≤ 0x4f) ||
  c.toNat = 0x52 || c.toNat = 0x5a || c.toNat = 0x63 ||
  (0x66 ≤ c.toNat && c.toNat ≤ 0x6e) || c.toNat = 0x71 || c.toNat = 0x72 ||
  c.toNat = 0x79 || c.toNat = 0x3d || c.toNat = 0x3e || c.toNat = 0x3c

/-- Remainders after `[[()#;?]*`, greedy order (longest run first). -/
def openerRems : List Char → List (List Char)
  | [] => [[]]
  | c :: cs => if isOpener c then openerRems cs ++ [c :: cs] else [c :: cs]

/-- Number of leading decimal digits. -/
def leadDigits : List Char → Nat
  | [] => 0
  | c :: cs => if isDigitCh c then leadDigits cs + 1 else 0

/-- Digit counts a greedy `{lo,4}` quantifier tries, longest first. -/
def digitTries (lo : Nat) (cs : List Char) : List Nat :=
  ((List.range (min 4 (leadDigits cs) + 1)).reverse).filter (fun k => lo ≤ k)

/-- Remainders after `(?:;[0-9]{0,4})*`, in the engine's preference
order; `fuel` bounds the number of groups (each consumes ≥ 1 char). -/
def sgRems : Nat → List Char → List (List Char)
  | 0, cs => [cs]
  | fuel + 1, cs =>
    match cs with
    | c :: rest =>
      if c = ';' then (digitTries 0 rest).flatMap (fun k => sgRems fuel (rest.drop k)) ++ [cs]
      else [cs]
    | [] => [cs]

/-- Remainders after `(?:[0-9]{1,4}(?:;[0-9]{0,4})*)?`, preference
order: group present (digits greedy, then semicolon groups), then group
skipped. -/
def paramRems (cs : List Char) : List (List Char) :=
  (digitTries 1 cs).flatMap (fun k => sgRems cs.length (cs.drop k)) ++ [cs]

/-- Try the final character class at the head. -/
def tryFinal : List Char → Option (List Char)
  | c :: rest => if isFinal c then some rest else none
  | [] => none

/-- Match the whole regex at the start of `cs`; returns the remainder
after the match, or `none`. -/
def matchEscapeAt (cs : List Char) : Option (List Char) :=
  match cs with
  | c :: rest =>
    if isIntro c then ((openerRems rest).flatMap paramRems).findSome? tryFinal
    else none
  | [] => none

/-- One pass of `replace(re, "")` with the `g` flag: scan left to right,
drop each match, keep unmatched characters.  `fuel` bounds the number of
steps (each consumes ≥ 1 character), so `fuel = cs.length` suffices. -/
def stripA : Nat → List Char → List Char
  | 0, cs => cs
  | _ + 1, [] => []
  | fuel + 1, c :: cs =>
    match matchEscapeAt (c :: cs) with
    | some rest => stripA fuel rest
    | none => c :: stripA fuel cs

def stripAnsi (cs : List Char) : List Char := stripA cs.length cs

/-- The per-record cleanup in `Output.ts` lines 17–19: trim, then strip
ANSI escape codes. -/
def cleanRec (r : String) : String := (stripAnsi (jsTrimL r.data)).asString

/-! ## Critique (`Critique.ts`) -/

/-- A thrown JavaScript exception; the only one the core can raise is the
`TypeError` from calling `.trim()` on an `undefined` field. -/
inductive JsErr where
  | typeError
deriving DecidableEq

deriving instance DecidableEq for Except

/-- The fields of a `Critique` object; `none` models a field left
`undefined` by the constructor. -/
structure Critique where
  line : Option Int
  column : Option Int
  severity : Option Int
  summary : Option String
  explanation : Option String
  error : Option String
deriving DecidableEq

/-- `s.trim()` where `s` may be `undefined`: throws a `TypeError` on
`undefined`. -/
def jsUndefTrim : Option String → Except JsErr String
  | none => .error .typeError
  | some s => .ok (jsTrimStr s)

/-- `x > 0 ? x - 1 : 0` on a JavaScript number that may be `NaN`
(`NaN > 0` is `false`). -/
def normDec : Option Int → Int
  | some v => if v > 0 then v - 1 else 0
  | none => 0

def errPrefixStr : String := "Invalid output format (Please check your perltidy settings): "

/-- The `Critique` constructor (`Critique.ts` lines 9–31): empty text
returns an all-`undefined` object; otherwise split on `[>]`, validate the
first three fields with `isNumber`, and either record the format error or
normalize and store the five fields.  `Except.error` models the uncaught
`TypeError` thrown when `.trim()` is called on a missing fourth or fifth
field. -/
def mkCritique (outputText : String) : Except JsErr Critique :=
  if outputText = "" then .ok ⟨none, none, none, none, none, none⟩
  else
    let parts := splitGtS outputText
    let lineStr := parts.get? 0
    let columnStr := parts.get? 1
    let severityStr := parts.get? 2
    let summaryStr := parts.get? 3
    let explanationStr := parts.get? 4
    if ¬(isNumber lineStr && isNumber columnStr && isNumber severityStr) then
      .ok ⟨none, none, none, none, none, some (errPrefixStr ++ outputText)⟩
    else do
      let lineInt := jsParseInt (← jsUndefTrim lineStr)
      let columnInt := jsParseInt (← jsUndefTrim columnStr)
      let severityInt := jsParseInt (← jsUndefTrim severityStr)
      let summary ← jsUndefTrim summaryStr
      let explanation ← jsUndefTrim explanationStr
      .ok ⟨some (normDec lineInt), some (normDec columnInt), some (normDec severityInt),
           some summary, some explanation, none⟩

/-! ## Output (`Output.ts`) -/

/-- JavaScript truthiness of a number field (`undefined` and `0` are
falsy). -/
def jsTruthyNum : Option Int → Bool
  | none => false
  | some v => v != 0

/-- JavaScript truthiness of a string field (`undefined` and `""` are
falsy). -/
def jsTruthyStr : Option String → Bool
  | none => false
  | some s => s != ""

structure Output where
  error : Option String
  critiques : List Critique
deriving DecidableEq

/-- The body of the `forEach` callback in the `Output` constructor
(`Output.ts` lines 16–28), acting on the accumulated
`(this.error, this.critiques)` state.  The callback's early `return`
after recording a critique's error only skips the rest of that
iteration. -/
def stepRec (acc : Option String × List Critique) (r : String) :
    Except JsErr (Option String × List Critique) := do
  let t := cleanRec r
  let critique ← mkCritique t
  if jsTruthyStr critique.error then
    pure (critique.error, acc.2)
  else if jsTruthyNum critique.severity then do
    let critique2 ← mkCritique t
    pure (acc.1, acc.2 ++ [critique2])
  else
    pure acc

/-- The `Output` constructor (`Output.ts` lines 9–30): a non-empty
`errorStr` wins outright; an empty `outputStr` yields the empty result;
otherwise the text is split on `[[END]]` and each record is processed in
order by `stepRec`. -/
def mkOutput (outputStr : String) (errorStr : String) : Except JsErr Output :=
  if errorStr ≠ "" then .ok ⟨some errorStr, []⟩
  else if outputStr = "" then .ok ⟨none, []⟩
  else do
    let st ← (splitEndS outputStr).foldlM stepRec (none, [])
    .ok ⟨st.1, st.2⟩

/-! ## Diagnostics construction (`server.ts`, `validateTextDocument`) -/

inductive DiagnosticSeverity where
  | error
  | warning
  | information
  | hint
deriving DecidableEq

structure Position where
  line : Option Int
  character : Option Int
deriving DecidableEq

structure DiagRange where
  start : Position
  «end» : Position
deriving DecidableEq

structure RelatedInfo where
  uri : String
  range : DiagRange
  message : Option String
deriving DecidableEq

structure Diagnostic where
  severity : DiagnosticSeverity
  range : DiagRange
  message : Option String
  source : String
  relatedInformation : Option (List RelatedInfo)
deriving DecidableEq

/-- The exact integer value of the double `Number.MAX_VALUE`. -/
def numberMaxValue : Nat := (2 ^ 53 - 1) * 2 ^ 971

/-- The diagnostics-construction loop of `validateTextDocument`
(`server.ts` lines 218–242): one `Diagnostic` per critique, severity
fixed to `Warning`, range from `(line, column)` to
`(line, Number.MAX_VALUE)`, message from the summary, and the
explanation attached as related information only when the client
declared the `relatedInformation` capability. -/
def toDiagnostics (hasRelatedInfoCap : Bool) (uri : String)
    (critiques : List Critique) : List Diagnostic :=
  critiques.map (fun critique =>
    let rg : DiagRange :=
      ⟨⟨critique.line, critique.column⟩, ⟨critique.line, some (numberMaxValue : Int)⟩⟩
    { severity := .warning
      range := rg
      message := critique.summary
      source := "perlcritic"
      relatedInformation :=
        if hasRelatedInfoCap then some [⟨uri, rg, critique.explanation⟩] else none })

/-! ## Record classification

Observers describing what one raw record contributes to the fold in the
`Output` constructor; the characterization lemmas below prove that the
fold agrees with them. -/

/-- Numeric-field validation of a cleaned record: the first three
`[>]`-separated fields must satisfy `isNumber`. -/
def fieldsOk (t : String) : Bool :=
  isNumber ((splitGtS t).get? 0) && isNumber ((splitGtS t).get? 1) &&
    isNumber ((splitGtS t).get? 2)

/-- The error message a raw record contributes: a non-blank cleaned
record failing numeric-field validation yields the prefixed message. -/
def recErrMsg (r : String) : Option String :=
  let t := cleanRec r
  if t = "" then none
  else if fieldsOk t then none
  else some (errPrefixStr ++ t)

/-- Whether a raw record makes the constructor throw: numeric fields
fine but fewer than five `[>]`-separated fields, so `.trim()` is called
on an `undefined` field. -/
def recCrashes (r : String) : Bool :=
  let t := cleanRec r
  t ≠ "" && fieldsOk t && decide ((splitGtS t).length < 5)

/-- The `Critique` value built from a valid cleaned record. -/
def critVal (t : String) : Critique :=
  let parts := splitGtS t
  ⟨some (normDec (jsParseInt (jsTrimStr ((parts.get? 0).getD "")))),
   some (normDec (jsParseInt (jsTrimStr ((parts.get? 1).getD "")))),
   some (normDec (jsParseInt (jsTrimStr ((parts.get? 2).getD "")))),
   some (jsTrimStr ((parts.get? 3).getD "")),
   some (jsTrimStr ((parts.get? 4).getD "")),
   none⟩

/-- The critique a raw record pushes onto the result sequence, if any. -/
def recPushed (r : String) : Option Critique :=
  let t := cleanRec r
  if t = "" then none
  else if ¬fieldsOk t then none
  else if (splitGtS t).length < 5 then none
  else if jsTruthyNum (critVal t).severity then some (critVal t) else none

/-- The error slot after folding records over a starting value: each
malformed record overwrites the previous message. -/
def errFold (e₀ : Option String) (rs : List String) : Option String :=
  rs.foldl (fun a r => (recErrMsg r).elim a some) e₀

/-- All critiques pushed by a record sequence, in order. -/
def recsPushed (rs : List String) : List Critique := rs.filterMap recPushed

/-! ## ANSI escape sequences as structured data

To state the claim that inserted ANSI escape sequences are stripped
without damage, escapes are represented structurally: an introducer
byte, a run of opener-class bytes, optional numeric parameters
(separated by `;`), and a final byte.  Well-formedness restricts each
part to the regex's character classes, with parameter runs of the
lengths the quantifiers accept and a non-digit final byte (the CSI
final-byte range `0x40`–`0x7e` contains no digits). -/

def sgRender (gs : List (List Char)) : List Char := (gs.map (fun g => ';' :: g)).flatten

def paramsRender : Option (List Char × List (List Char)) → List Char
  | none => []
  | some (d1, gs) => d1 ++ sgRender gs

structure AnsiEsc where
  esc : Char
  opens : List Char
  params : Option (List Char × List (List Char))
  fin : Char

def AnsiEsc.render (e : AnsiEsc) : List Char :=
  e.esc :: (e.opens ++ paramsRender e.params ++ [e.fin])

def AnsiEsc.WF (e : AnsiEsc) : Prop :=
  isIntro e.esc = true ∧
  (∀ c ∈ e.opens, isOpener c = true) ∧
  (match e.params with
   | none => True
   | some (d1, gs) =>
     (1 ≤ d1.length ∧ d1.length ≤ 4 ∧ ∀ c ∈ d1, isDigitCh c = true) ∧
     (∀ g ∈ gs, g.length ≤ 4 ∧ ∀ c ∈ g, isDigitCh c = true)) ∧
  isFinal e.fin = true ∧ isDigitCh e.fin = false

/-- A record text interleaved with escape sequences: each piece is a
stretch of record text followed by one escape, and `tail` is the record
text after the last escape. -/
def weave : List (List Char × AnsiEsc) → List Char → List Char
  | [], tail => tail
  | (chunk, e) :: ps, tail => chunk ++ e.render ++ weave ps tail

/-- The same record text with the escapes removed. -/
def chunksOf : List (List Char × AnsiEsc) → List Char → List Char
  | [], tail => tail
  | (chunk, _) :: ps, tail => chunk ++ chunksOf ps tail

/-- Text free of the regex's introducer bytes. -/
def introFree (l : List Char) : Prop := ∀ c ∈ l, isIntro c = false

/-! ## Characterization of the constructor on each record class -/

theorem fieldsOk_empty_false : fieldsOk "" = false := by decide

theorem mkCritique_blank : mkCritique "" = .ok ⟨none, none, none, none, none, none⟩ := rfl

theorem exceptBind_ok {α β ε : Type} (a : α) (f : α → Except ε β) :
    (Except.ok a : Except ε α) >>= f = f a := rfl

theorem exceptBind_err {α β ε : Type} (e : ε) (f : α → Except ε β) :
    (Except.error e : Except ε α) >>= f = Except.error e := rfl

theorem mkCritique_badFields {t : String} (ht : t ≠ "") (h : fieldsOk t = false) :
    mkCritique t = .ok ⟨none, none, none, none, none, some (errPrefixStr ++ t)⟩ := by
  simp only [mkCritique, if_neg ht]
  split
  · rfl
  · rename_i hc
    rw [not_not, ← fieldsOk] at hc
    rw [hc] at h
    cases h

theorem isNumber_none_false : isNumber none = false := rfl

/-- A successfully validated field is present. -/
theorem isNumber_isSome {o : Option String} (h : isNumber o = true) : ∃ s, o = some s := by
  cases o with
  | none => exact absurd h (by decide)
  | some s => exact ⟨s, rfl⟩

theorem mkCritique_crash {t : String} (ht : t ≠ "") (h : fieldsOk t = true)
    (hlen : (splitGtS t).length < 5) : mkCritique t = .error .typeError := by
  rw [fieldsOk, Bool.and_eq_true, Bool.and_eq_true] at h
  obtain ⟨⟨h0, h1⟩, h2⟩ := h
  obtain ⟨s0, hs0⟩ := isNumber_isSome h0
  obtain ⟨s1, hs1⟩ := isNumber_isSome h1
  obtain ⟨s2, hs2⟩ := isNumber_isSome h2
  have hnot : ¬¬(isNumber ((splitGtS t).get? 0) && isNumber ((splitGtS t).get? 1) &&
      isNumber ((splitGtS t).get? 2)) = true := by rw [not_not, h0, h1, h2]; rfl
  simp only [mkCritique, if_neg ht, if_neg hnot]
  rcases Nat.lt_or_ge ((splitGtS t).length) 4 with h4 | h4
  · have hg3 : (splitGtS t).get? 3 = none := List.get?_eq_none.mpr (by omega)
    simp only [hs0, hs1, hs2, hg3, jsUndefTrim, exceptBind_ok, exceptBind_err]
  · have hg4 : (splitGtS t).get? 4 = none := List.get?_eq_none.mpr (by omega)
    have hg3 : (splitGtS t).get? 3 = some ((splitGtS t).get ⟨3, by omega⟩) :=
      List.get?_eq_get (by omega)
    simp only [hs0, hs1, hs2, hg3, hg4, jsUndefTrim, exceptBind_ok, exceptBind_err]

theorem mkCritique_valid {t : String} (ht : t ≠ "") (h : fieldsOk t = true)
    (hlen : 5 ≤ (splitGtS t).length) : mkCritique t = .ok (critVal t) := by
  rw [fieldsOk, Bool.and_eq_true, Bool.and_eq_true] at h
  obtain ⟨⟨h0, h1⟩, h2⟩ := h
  obtain ⟨s0, hs0⟩ := isNumber_isSome h0
  obtain ⟨s1, hs1⟩ := isNumber_isSome h1
  obtain ⟨s2, hs2⟩ := isNumber_isSome h2
  have hnot : ¬¬(isNumber ((splitGtS t).get? 0) && isNumber ((splitGtS t).get? 1) &&
      isNumber ((splitGtS t).get? 2)) = true := by rw [not_not, h0, h1, h2]; rfl
  have hg3 : (splitGtS t).get? 3 = some ((splitGtS t).get ⟨3, by omega⟩) :=
    List.get?_eq_get (by omega)
  have hg4 : (splitGtS t).get? 4 = some ((splitGtS t).get ⟨4, by omega⟩) :=
    List.get?_eq_get (by omega)
  simp only [mkCritique, if_neg ht, if_neg hnot]
  simp only [hs0, hs1, hs2, hg3, hg4, jsUndefTrim, exceptBind_ok]
  simp only [critVal, hs0, hs1, hs2, hg3, hg4, Option.getD_some]

/-! ## Characterization of the record fold -/

theorem errPrefix_append_ne_empty (t : String) : (errPrefixStr ++ t) ≠ "" := by
  intro h
  have hlen := congrArg String.length h
  rw [String.length_append, show errPrefixStr.length = 61 by decide,
    show ("" : String).length = 0 by decide] at hlen
  omega

/-- One `forEach` iteration, described by the record observers: provided
the record does not make the constructor throw, the iteration overwrites
the error slot with the record's error message (if any) and appends the
record's pushed critique (if any). -/
theorem exceptPure {α ε : Type} (a : α) : (pure a : Except ε α) = Except.ok a := rfl

theorem stepRec_char (acc : Option String × List Critique) (r : String)
    (h : recCrashes r = false) :
    stepRec acc r = .ok ((recErrMsg r).elim acc.1 some, acc.2 ++ (recPushed r).toList) := by
  by_cases ht : cleanRec r = ""
  · have he : recErrMsg r = none := by rw [recErrMsg]; simp [ht]
    have hp : recPushed r = none := by rw [recPushed]; simp [ht]
    simp [stepRec, ht, mkCritique_blank, exceptBind_ok, jsTruthyStr, jsTruthyNum, he, hp,
      exceptPure]
  · by_cases hf : fieldsOk (cleanRec r)
    · rcases Nat.lt_or_ge ((splitGtS (cleanRec r)).length) 5 with h5 | h5
      · exfalso
        rw [recCrashes] at h
        simp [ht, hf, h5] at h
      · have hv := mkCritique_valid ht hf h5
        have h5' : ¬(splitGtS (cleanRec r)).length < 5 := by omega
        have he : recErrMsg r = none := by rw [recErrMsg]; simp [ht, hf]
        have herr : (critVal (cleanRec r)).error = none := rfl
        by_cases hsev : jsTruthyNum (critVal (cleanRec r)).severity
        · have hp : recPushed r = some (critVal (cleanRec r)) := by
            rw [recPushed]; simp [ht, hf, h5', hsev]
          simp [stepRec, hv, exceptBind_ok, herr, jsTruthyStr, hsev, he, hp, exceptPure]
        · have hp : recPushed r = none := by
            rw [recPushed]; simp [ht, hf, h5', hsev]
          simp [stepRec, hv, exceptBind_ok, herr, jsTruthyStr, hsev, he, hp, exceptPure]
    · have hb := mkCritique_badFields ht (by simpa using hf)
      have he : recErrMsg r = some (errPrefixStr ++ cleanRec r) := by
        rw [recErrMsg]; simp [ht, hf]
      have hp : recPushed r = none := by rw [recPushed]; simp [ht, hf]
      have hne := errPrefix_append_ne_empty (cleanRec r)
      simp [stepRec, hb, exceptBind_ok, jsTruthyStr, hne, he, hp, exceptPure]

/-- Folding the records: the error slot ends as the last malformed
record's message (else the start value) and the pushed critiques are
appended in order. -/
theorem foldRecs_char (rs : List String) (acc : Option String × List Critique)
    (h : ∀ r ∈ rs, recCrashes r = false) :
    rs.foldlM stepRec acc = .ok (errFold acc.1 rs, acc.2 ++ recsPushed rs) := by
  induction rs generalizing acc with
  | nil => simp [errFold, recsPushed, exceptPure]
  | cons r rs ih =>
    have hr : recCrashes r = false := h r (List.mem_cons_self r rs)
    have hrs : ∀ x ∈ rs, recCrashes x = false := fun x hx => h x (List.mem_cons_of_mem r hx)
    rw [List.foldlM_cons, stepRec_char acc r hr, exceptBind_ok,
      ih _ hrs]
    simp only [errFold, List.foldl_cons, recsPushed, List.filterMap_cons]
    cases hp : recPushed r <;> simp [List.append_assoc]

/-- Full characterization of the `Output` constructor on an empty stderr
and non-empty stdout, provided no record crashes the constructor. -/
theorem mkOutput_char (outputStr : String) (hne : outputStr ≠ "")
    (h : ∀ r ∈ splitEndS outputStr, recCrashes r = false) :
    mkOutput outputStr "" =
      .ok ⟨errFold none (splitEndS outputStr), recsPushed (splitEndS outputStr)⟩ := by
  rw [mkOutput, if_neg (by simp), if_neg hne, foldRecs_char _ _ h, exceptBind_ok]
  simp

/-! ## Further helper lemmas about the observers -/

theorem asString_eq_empty {l : List Char} (h : l.asString = "") : l = [] := by
  have := congrArg String.data h
  simpa [List.asString] using this

theorem cleanRec_of_trim_empty {seg : String} (h : jsTrimStr seg = "") : cleanRec seg = "" := by
  rw [jsTrimStr] at h
  rw [cleanRec, asString_eq_empty h]
  rfl

theorem recCrashes_of_clean_empty {r : String} (h : cleanRec r = "") :
    recCrashes r = false := by
  rw [recCrashes]
  simp [h]

theorem recErrMsg_of_clean_empty {r : String} (h : cleanRec r = "") :
    recErrMsg r = none := by
  rw [recErrMsg]
  simp [h]

theorem recPushed_of_clean_empty {r : String} (h : cleanRec r = "") :
    recPushed r = none := by
  rw [recPushed]
  simp [h]

theorem errFold_all_none {rs : List String} (e₀ : Option String)
    (h : ∀ r ∈ rs, recErrMsg r = none) : errFold e₀ rs = e₀ := by
  induction rs generalizing e₀ with
  | nil => rfl
  | cons r rs ih =>
    rw [errFold, List.foldl_cons, h r (List.mem_cons_self r rs)]
    exact ih e₀ (fun x hx => h x (List.mem_cons_of_mem r hx))

theorem getLastQ_cons {α : Type} (a : α) (l : List α) :
    (a :: l).getLast? = (l.getLast?).elim (some a) some := by
  induction l with
  | nil => rfl
  | cons b t _ =>
    rw [List.getLast?_cons_cons]
    cases hl : (b :: t).getLast? with
    | none =>
      rw [List.getLast?] at hl
      exact Option.noConfusion hl
    | some x => rfl

/-- The error fold computes the message of the last malformed record. -/
theorem errFold_eq_getLast (rs : List String) (e₀ : Option String) :
    errFold e₀ rs = ((rs.filterMap recErrMsg).getLast?).elim e₀ some := by
  induction rs generalizing e₀ with
  | nil => rfl
  | cons r rs ih =>
    rw [errFold, List.foldl_cons, ← errFold, ih, List.filterMap_cons]
    cases hm : recErrMsg r with
    | none => rfl
    | some m =>
      rw [Option.elim, getLastQ_cons]
      cases (rs.filterMap recErrMsg).getLast? <;> rfl

theorem fieldsOk_ne_empty {t : String} (h : fieldsOk t = true) : t ≠ "" := by
  intro he
  rw [he] at h
  exact absurd h (by decide)

/-! ## Claim theorems -/

/-- C4: whenever `stderrText` is non-empty, the result is exactly the
error state carrying that text verbatim, with an empty critique
sequence, no matter what `stdoutText` contains (which is never
parsed). -/
theorem C4_stderr_precedence (outputStr errorStr : String) (h : errorStr ≠ "") :
    mkOutput outputStr errorStr = .ok ⟨some errorStr, []⟩ := by
  rw [mkOutput, if_pos h]

theorem C4_stderr_precedence_witness :
    mkOutput "2[>]5[>]3[>]a[>]b[[END]]" "Can not run perlcritic" =
      .ok ⟨some "Can not run perlcritic", []⟩ :=
  C4_stderr_precedence _ _ (by decide)

set_option maxRecDepth 8000 in
/-- C3 (code slip): a record whose first three fields are numeric but
which splits into fewer than five `[>]`-separated fields does *not*
leave the trailing fields undefined and continue — the constructor
calls `.trim()` on the `undefined` field and throws a `TypeError`, so
`parse` does not return a `ParseResult` at all. -/
theorem C3_short_record_crash :
    mkOutput "1[>]2[>]3" "" = .error .typeError ∧
    mkOutput "1[>]2[>]3[>]only four fields" "" = .error .typeError := by
  constructor <;> decide

/-- C7: when every `[[END]]`-delimited segment trims to the empty
string (including the empty `stdoutText` and a trailing marker), the
result is the success state: no findings and no error. -/
theorem C7_blank_records (outputStr : String)
    (h : ∀ seg ∈ splitEndS outputStr, jsTrimStr seg = "") :
    mkOutput outputStr "" = .ok ⟨none, []⟩ := by
  rcases eq_or_ne outputStr "" with he | hne
  · subst he; rfl
  · have hclean : ∀ seg ∈ splitEndS outputStr, cleanRec seg = "" :=
      fun seg hs => cleanRec_of_trim_empty (h seg hs)
    rw [mkOutput_char outputStr hne
      (fun r hr => recCrashes_of_clean_empty (hclean r hr))]
    rw [errFold_all_none none (fun r hr => recErrMsg_of_clean_empty (hclean r hr))]
    have : recsPushed (splitEndS outputStr) = [] := by
      rw [recsPushed, List.filterMap_eq_nil_iff]
      exact fun r hr => recPushed_of_clean_empty (hclean r hr)
    rw [this]

theorem C7_blank_records_witness :
    mkOutput " \t[[END]]\n " "" = .ok ⟨none, []⟩ ∧ mkOutput "[[END]]" "" = .ok ⟨none, []⟩ :=
  ⟨C7_blank_records _ (by decide), C7_blank_records _ (by decide)⟩

theorem getLastQ_isSome {α : Type} {l : List α} (h : l ≠ []) : l.getLast?.isSome = true := by
  cases l with
  | nil => exact absurd rfl h
  | cons a t =>
    rw [getLastQ_cons]
    cases t.getLast? <;> rfl

set_option maxRecDepth 8000 in
/-- C1 is refuted by the code: on a stream with one valid record
followed by one malformed record, the resulting `Output` carries *both*
the format-error message and a non-empty critique sequence — the
`forEach` callback's `return` only skips one iteration, so findings
already parsed are not discarded and the two outcomes are not mutually
exclusive. -/
theorem C1_counterexample :
    (mkOutput "2[>]2[>]5[>]a[>]b[[END]]x[>]1[>]1[>]m[>]e" "").map
        (fun o => (o.error.isSome, o.critiques.length)) = .ok (true, 1) ∧
    (mkOutput "2[>]2[>]5[>]a[>]b[[END]]x[>]1[>]1[>]m[>]e" "").map Output.error =
      .ok (some ("Invalid output format (Please check your perltidy settings): " ++
        "x[>]1[>]1[>]m[>]e")) := by
  constructor <;> decide

/-- C1 (amended): a non-blank record failing numeric-field validation
sets the result's error (to the message of the last such record), but it
does not abort collection: the critique sequence still contains every
critique pushed by the valid records of the whole stream, so the result
can carry an error and a non-empty finding sequence at the same time. -/
theorem C1_error_does_not_discard (outputStr : String)
    (hne : outputStr ≠ "")
    (hnc : ∀ r ∈ splitEndS outputStr, recCrashes r = false)
    (hbad : (splitEndS outputStr).filterMap recErrMsg ≠ []) :
    mkOutput outputStr "" =
      .ok ⟨((splitEndS outputStr).filterMap recErrMsg).getLast?,
           recsPushed (splitEndS outputStr)⟩ ∧
    (((splitEndS outputStr).filterMap recErrMsg).getLast?).isSome = true := by
  have hchar := mkOutput_char outputStr hne hnc
  rw [errFold_eq_getLast] at hchar
  obtain ⟨m, hm⟩ := Option.isSome_iff_exists.mp (getLastQ_isSome hbad)
  rw [hm] at hchar ⊢
  exact ⟨by simpa using hchar, rfl⟩

set_option maxRecDepth 8000 in
theorem C1_error_does_not_discard_witness :
    mkOutput "2[>]2[>]5[>]a[>]b[[END]]x[>]1[>]1[>]m[>]e" "" =
      .ok ⟨((splitEndS "2[>]2[>]5[>]a[>]b[[END]]x[>]1[>]1[>]m[>]e").filterMap
              recErrMsg).getLast?,
           recsPushed (splitEndS "2[>]2[>]5[>]a[>]b[[END]]x[>]1[>]1[>]m[>]e")⟩ ∧
    (((splitEndS "2[>]2[>]5[>]a[>]b[[END]]x[>]1[>]1[>]m[>]e").filterMap
        recErrMsg).getLast?).isSome = true :=
  C1_error_does_not_discard _ (by decide) (by decide) (by decide)

/-- C10: with empty stderr and at least two records failing
numeric-field validation, the error carried by the result is the message
of the last malformed record in stream order — each later message
overwrites the earlier one. -/
theorem C10_last_error_wins (outputStr : String)
    (hnc : ∀ r ∈ splitEndS outputStr, recCrashes r = false)
    (h2 : 2 ≤ ((splitEndS outputStr).filterMap recErrMsg).length) :
    (mkOutput outputStr "").map Output.error =
      .ok (((splitEndS outputStr).filterMap recErrMsg).getLast?) := by
  have hne : outputStr ≠ "" := by
    intro he
    rw [he] at h2
    exact absurd h2 (by decide)
  have hbad : (splitEndS outputStr).filterMap recErrMsg ≠ [] := by
    intro h0
    rw [h0] at h2
    exact absurd h2 (by decide)
  rw [mkOutput_char outputStr hne hnc, errFold_eq_getLast]
  obtain ⟨m, hm⟩ := Option.isSome_iff_exists.mp (getLastQ_isSome hbad)
  rw [hm]
  rfl

set_option maxRecDepth 8000 in
theorem C10_last_error_wins_witness :
    (mkOutput "a[>]b[[END]]c[>]d" "").map Output.error =
      .ok (((splitEndS "a[>]b[[END]]c[>]d").filterMap recErrMsg).getLast?) ∧
    ((splitEndS "a[>]b[[END]]c[>]d").filterMap recErrMsg).getLast? =
      some ("Invalid output format (Please check your perltidy settings): " ++ "c[>]d") :=
  ⟨C10_last_error_wins _ (by decide) (by decide), by decide⟩

/-- C6: a non-blank record whose line, column or severity field fails
numeric parsing makes the critique — and with it the whole result —
carry the error message formed by the fixed configuration-guidance
prefix followed by the offending (cleaned) record text; in particular
`"x[>]1[>]1[>]msg[>]exp[[END]]"` yields an error whose message embeds
that record's literal text. -/
theorem C6_format_error_message :
    (∀ t : String, t ≠ "" → fieldsOk t = false →
      mkCritique t = .ok ⟨none, none, none, none, none, some (errPrefixStr ++ t)⟩) ∧
    (∀ outputStr : String, (∀ r ∈ splitEndS outputStr, recCrashes r = false) →
      (splitEndS outputStr).filterMap recErrMsg ≠ [] →
      (mkOutput outputStr "").map (fun o => o.error.isSome) = .ok true) ∧
    mkOutput "x[>]1[>]1[>]msg[>]exp[[END]]" "" =
      .ok ⟨some (errPrefixStr ++ "x[>]1[>]1[>]msg[>]exp"), []⟩ := by
  refine ⟨fun t ht hf => mkCritique_badFields ht hf, fun outputStr hnc hbad => ?_, by decide⟩
  have hne : outputStr ≠ "" := by
    intro he
    rw [he] at hbad
    exact hbad (by decide)
  rw [mkOutput_char outputStr hne hnc, errFold_eq_getLast]
  obtain ⟨m, hm⟩ := Option.isSome_iff_exists.mp (getLastQ_isSome hbad)
  rw [hm]
  rfl

set_option maxRecDepth 8000 in
theorem C6_format_error_message_witness :
    mkCritique "x[>]y" = .ok ⟨none, none, none, none, none, some (errPrefixStr ++ "x[>]y")⟩ ∧
    (mkOutput "x[>]1[>]1[>]msg[>]exp[[END]]" "").map (fun o => o.error.isSome) = .ok true :=
  ⟨C6_format_error_message.1 "x[>]y" (by decide) (by decide),
   C6_format_error_message.2.1 "x[>]1[>]1[>]msg[>]exp[[END]]" (by decide) (by decide)⟩

theorem normDec_eq_max (v : Int) : normDec (some v) = max (v - 1) 0 := by
  rw [normDec]
  split <;> omega

set_option maxRecDepth 8000 in
/-- C2 is refuted by the code: the push guard `if (critique.severity)`
tests the *normalized* severity, so a record whose severity literal is
`1` (non-zero, positive) parses fine yet produces no finding — the
pre-normalization rule stated by the claim does not hold. -/
theorem C2_counterexample :
    mkOutput "3[>]4[>]1[>]s[>]e[[END]]" "" = .ok ⟨none, []⟩ ∧
    jsParseInt (jsTrimStr "1") = some 1 := by
  constructor <;> decide

/-- C2 (amended): for a record whose three numeric fields parse and
which has all five fields, the finding is emitted into the result
sequence iff the *normalized* severity `max(severity - 1, 0)` is
non-zero, i.e. iff the parsed severity is at least `2`; a parsed
severity of `1` or `0` (or any non-positive value) is silently skipped
without error, and a parsed severity `Sp ≥ 2` yields
`severityRank = Sp - 1`. -/
theorem C2_emission_rule (acc : Option String × List Critique) (r f2 : String) (Sp : Int)
    (hf : fieldsOk (cleanRec r) = true)
    (hlen : 5 ≤ (splitGtS (cleanRec r)).length)
    (hget : (splitGtS (cleanRec r)).get? 2 = some f2)
    (hSp : jsParseInt (jsTrimStr f2) = some Sp) :
    (2 ≤ Sp → stepRec acc r = .ok (acc.1, acc.2 ++ [critVal (cleanRec r)]) ∧
      (critVal (cleanRec r)).severity = some (Sp - 1)) ∧
    (Sp ≤ 1 → stepRec acc r = .ok acc) := by
  have ht : cleanRec r ≠ "" := fieldsOk_ne_empty hf
  have h5' : ¬(splitGtS (cleanRec r)).length < 5 := by omega
  have hnc : recCrashes r = false := by
    rw [recCrashes]
    simp [ht, hf, h5']
  have he : recErrMsg r = none := by
    rw [recErrMsg]
    simp [ht, hf]
  have hsev : (critVal (cleanRec r)).severity = some (normDec (some Sp)) := by
    simp only [critVal, hget, Option.getD_some, hSp]
  constructor
  · intro h2
    have hsev' : (critVal (cleanRec r)).severity = some (Sp - 1) := by
      rw [hsev, normDec, if_pos (by omega : Sp > 0)]
    have htr : jsTruthyNum (critVal (cleanRec r)).severity = true := by
      rw [hsev']
      simp [jsTruthyNum]
      omega
    have hp : recPushed r = some (critVal (cleanRec r)) := by
      rw [recPushed]
      simp [ht, hf, h5', htr]
    refine ⟨?_, hsev'⟩
    rw [stepRec_char acc r hnc, he, hp]
    rfl
  · intro h1
    have hsev' : (critVal (cleanRec r)).severity = some 0 := by
      rw [hsev, normDec]
      congr 1
      split <;> omega
    have htr : jsTruthyNum (critVal (cleanRec r)).severity = false := by
      rw [hsev']
      rfl
    have hp : recPushed r = none := by
      rw [recPushed]
      simp [ht, hf, h5', htr]
    rw [stepRec_char acc r hnc, he, hp]
    simp

set_option maxRecDepth 8000 in
theorem C2_emission_rule_witness :
    (stepRec (none, []) "2[>]5[>]3[>]m[>]e" =
        .ok (none, [critVal (cleanRec "2[>]5[>]3[>]m[>]e")]) ∧
      (critVal (cleanRec "2[>]5[>]3[>]m[>]e")).severity = some 2) ∧
    stepRec (none, []) "3[>]4[>]1[>]s[>]e" = .ok (none, []) :=
  ⟨(C2_emission_rule (none, []) "2[>]5[>]3[>]m[>]e" "3" 3
      (by decide) (by decide) (by decide) (by decide)).1 (by decide),
   (C2_emission_rule (none, []) "3[>]4[>]1[>]s[>]e" "1" 1
      (by decide) (by decide) (by decide) (by decide)).2 (by decide)⟩

set_option maxRecDepth 8000 in
/-- C5: a record whose three numeric fields parse to `Lp`, `Cp`, `Sp`
and which has all five fields yields a critique with
`line = max(Lp-1, 0)`, `column = max(Cp-1, 0)`,
`severity = max(Sp-1, 0)`, and the trimmed fourth and fifth fields as
summary and explanation; concretely, scenario A's record yields exactly
the finding the spec lists. -/
theorem C5_field_normalization (t f0 f1 f2 f3 f4 : String) (Lp Cp Sp : Int)
    (hf : fieldsOk t = true)
    (h0 : (splitGtS t).get? 0 = some f0)
    (h1 : (splitGtS t).get? 1 = some f1)
    (h2 : (splitGtS t).get? 2 = some f2)
    (h3 : (splitGtS t).get? 3 = some f3)
    (h4 : (splitGtS t).get? 4 = some f4)
    (hL : jsParseInt (jsTrimStr f0) = some Lp)
    (hC : jsParseInt (jsTrimStr f1) = some Cp)
    (hS : jsParseInt (jsTrimStr f2) = some Sp) :
    mkCritique t = .ok ⟨some (max (Lp - 1) 0), some (max (Cp - 1) 0), some (max (Sp - 1) 0),
      some (jsTrimStr f3), some (jsTrimStr f4), none⟩ ∧
    mkOutput "2[>]5[>]3[>]Bad thing. Explanation (Policy)[>]Policy::Name[[END]]" "" =
      .ok ⟨none, [⟨some 1, some 4, some 2, some "Bad thing. Explanation (Policy)",
        some "Policy::Name", none⟩]⟩ := by
  constructor
  · have ht := fieldsOk_ne_empty hf
    have hlen : 5 ≤ (splitGtS t).length := by
      obtain ⟨hb, -⟩ := List.get?_eq_some.mp h4
      omega
    rw [mkCritique_valid ht hf hlen]
    simp only [critVal, h0, h1, h2, h3, h4, Option.getD_some, hL, hC, hS, normDec_eq_max]
  · decide

set_option maxRecDepth 8000 in
theorem C5_field_normalization_witness :
    mkCritique "2[>]5[>]3[>] a b [>]c" =
      .ok ⟨some (max ((2 : Int) - 1) 0), some (max ((5 : Int) - 1) 0),
        some (max ((3 : Int) - 1) 0), some (jsTrimStr " a b "), some (jsTrimStr "c"), none⟩ :=
  (C5_field_normalization "2[>]5[>]3[>] a b [>]c" "2" "5" "3" " a b " "c" 2 5 3
    (by decide) (by decide) (by decide) (by decide) (by decide) (by decide)
    (by decide) (by decide) (by decide)).1

/-- C9: the diagnostics-construction loop is a pure, length- and
order-preserving 1:1 map: the `i`-th diagnostic is built from the `i`-th
critique, with severity fixed to the warning class, a range from
`(line, column)` to `(line, Number.MAX_VALUE)`, the summary as primary
message, and the explanation attached as related information exactly
when the client capability was declared. -/
theorem C9_toDiagnostics_pointwise (hasCap : Bool) (uri : String)
    (critiques : List Critique) :
    (toDiagnostics hasCap uri critiques).length = critiques.length ∧
    ∀ i, (hi : i < critiques.length) →
      (toDiagnostics hasCap uri critiques)[i]? =
        some { severity := .warning,
               range := ⟨⟨critiques[i].line, critiques[i].column⟩,
                        ⟨critiques[i].line, some (numberMaxValue : Int)⟩⟩,
               message := critiques[i].summary,
               source := "perlcritic",
               relatedInformation :=
                 if hasCap then
                   some [⟨uri, ⟨⟨critiques[i].line, critiques[i].column⟩,
                     ⟨critiques[i].line, some (numberMaxValue : Int)⟩⟩,
                     critiques[i].explanation⟩]
                 else none } := by
  constructor
  · rw [toDiagnostics, List.length_map]
  · intro i hi
    rw [toDiagnostics, List.getElem?_map, List.getElem?_eq_getElem hi]
    rfl

theorem C9_toDiagnostics_pointwise_witness :
    (toDiagnostics true "file:///t.pl"
        [⟨some 1, some 2, some 3, some "s", some "e", none⟩]).length = 1 ∧
    (toDiagnostics true "file:///t.pl"
        [⟨some 1, some 2, some 3, some "s", some "e", none⟩])[0]? =
      some { severity := .warning,
             range := ⟨⟨some 1, some 2⟩, ⟨some 1, some (numberMaxValue : Int)⟩⟩,
             message := some "s",
             source := "perlcritic",
             relatedInformation :=
               some [⟨"file:///t.pl", ⟨⟨some 1, some 2⟩,
                 ⟨some 1, some (numberMaxValue : Int)⟩⟩, some "e"⟩] } :=
  ⟨(C9_toDiagnostics_pointwise true "file:///t.pl"
      [⟨some 1, some 2, some 3, some "s", some "e", none⟩]).1,
   (C9_toDiagnostics_pointwise true "file:///t.pl"
      [⟨some 1, some 2, some 3, some "s", some "e", none⟩]).2 0 (by decide)⟩

/-! ## Character-class facts used by the escape-stripping proof -/

theorem isFinal_not_opener {c : Char} (h : isFinal c = true) : isOpener c = false := by
  rw [Bool.eq_false_iff]
  intro hop
  simp only [isFinal, isOpener, Bool.or_eq_true, Bool.and_eq_true, decide_eq_true_eq] at h hop
  omega

theorem isDigit_not_opener {c : Char} (h : isDigitCh c = true) : isOpener c = false := by
  rw [Bool.eq_false_iff]
  intro hop
  simp only [isDigitCh, isOpener, Bool.or_eq_true, Bool.and_eq_true, decide_eq_true_eq] at h hop
  omega

theorem isFinal_ne_semi {c : Char} (h : isFinal c = true) : c ≠ ';' := by
  intro he
  rw [he] at h
  exact absurd h (by decide)

theorem isIntro_not_ws {c : Char} (h : isIntro c = true) : isJsWS c = false := by
  rw [Bool.eq_false_iff]
  intro hw
  simp only [isIntro, isJsWS, wsB, Bool.or_eq_true, Bool.and_eq_true,
    decide_eq_true_eq] at h hw
  omega

theorem isFinal_not_ws {c : Char} (h : isFinal c = true) : isJsWS c = false := by
  rw [Bool.eq_false_iff]
  intro hw
  simp only [isFinal, isJsWS, wsB, Bool.or_eq_true, Bool.and_eq_true,
    decide_eq_true_eq] at h hw
  omega

theorem matchEscapeAt_not_intro {c : Char} (cs : List Char) (h : isIntro c = false) :
    matchEscapeAt (c :: cs) = none := by
  rw [matchEscapeAt, if_neg (by rw [h]; exact Bool.false_ne_true)]

/-! ## Exactness of the regex matcher on a rendered escape -/

theorem findSomeQ_append_some {α β : Type} {l₁ : List α} {f : α → Option β} {r : β}
    (h : l₁.findSome? f = some r) (l₂ : List α) : (l₁ ++ l₂).findSome? f = some r := by
  induction l₁ with
  | nil => exact absurd h (by simp)
  | cons a t ih =>
    rw [List.cons_append, List.findSome?_cons]
    rw [List.findSome?_cons] at h
    cases hfa : f a with
    | none => rw [hfa] at h; exact ih h
    | some b => rw [hfa] at h; exact h

theorem openerRems_exact {opens tail : List Char}
    (hop : ∀ c ∈ opens, isOpener c = true)
    (hhd : ∀ c, tail.head? = some c → isOpener c = false) :
    ∃ others, openerRems (opens ++ tail) = tail :: others := by
  induction opens with
  | nil =>
    cases tail with
    | nil => exact ⟨[], rfl⟩
    | cons c cs =>
      refine ⟨[], ?_⟩
      rw [List.nil_append, openerRems,
        if_neg (by rw [hhd c rfl]; exact Bool.false_ne_true)]
  | cons a t ih =>
    obtain ⟨others, hothers⟩ := ih (fun c hc => hop c (List.mem_cons_of_mem a hc))
    rw [List.cons_append, openerRems, if_pos (hop a (List.mem_cons_self a t)), hothers]
    exact ⟨others ++ [a :: (t ++ tail)], rfl⟩

theorem leadDigits_append {d t : List Char} (hd : ∀ c ∈ d, isDigitCh c = true)
    (hhd : ∀ c, t.head? = some c → isDigitCh c = false) :
    leadDigits (d ++ t) = d.length := by
  induction d with
  | nil =>
    cases t with
    | nil => rfl
    | cons c cs =>
      rw [List.nil_append, leadDigits, if_neg (by rw [hhd c rfl]; exact Bool.false_ne_true)]
      rfl
  | cons a ds ih =>
    rw [List.cons_append, leadDigits, if_pos (hd a (List.mem_cons_self a ds)),
      ih (fun c hc => hd c (List.mem_cons_of_mem a hc)), List.length_cons]

theorem digitTries_exact {lo : Nat} {cs : List Char} {d : Nat} (hld : leadDigits cs = d)
    (hlo : lo ≤ d) (hd4 : d ≤ 4) : ∃ ks, digitTries lo cs = d :: ks := by
  rw [digitTries, hld, Nat.min_eq_right hd4, List.range_succ, List.reverse_append,
    List.reverse_singleton, List.singleton_append, List.filter_cons,
    if_pos (by simpa using hlo)]
  exact ⟨_, rfl⟩

theorem sgRender_head_not_digit {gs : List (List Char)} {fin : Char} {rest : List Char}
    (hfd : isDigitCh fin = false) :
    ∀ c, (sgRender gs ++ fin :: rest).head? = some c → isDigitCh c = false := by
  intro c hc
  cases gs with
  | nil =>
    simp only [sgRender, List.map_nil, List.flatten_nil, List.nil_append,
      List.head?_cons, Option.some.injEq] at hc
    rw [← hc]
    exact hfd
  | cons g gs' =>
    have hx : sgRender (g :: gs') = ';' :: (g ++ sgRender gs') := by
      simp [sgRender]
    rw [hx] at hc
    simp only [List.cons_append, List.head?_cons, Option.some.injEq] at hc
    rw [← hc]
    decide

theorem sgRender_length_ge (gs : List (List Char)) : gs.length ≤ (sgRender gs).length := by
  induction gs with
  | nil => simp [sgRender]
  | cons g gs' ih =>
    have hx : sgRender (g :: gs') = ';' :: (g ++ sgRender gs') := by simp [sgRender]
    rw [hx, List.length_cons, List.length_cons, List.length_append]
    omega

theorem sgRems_exact {fin : Char} (hfin : isFinal fin = true) (hfd : isDigitCh fin = false)
    (gs : List (List Char)) :
    ∀ n, gs.length ≤ n →
    (∀ g ∈ gs, g.length ≤ 4 ∧ ∀ c ∈ g, isDigitCh c = true) →
    ∀ rest, (sgRems n (sgRender gs ++ fin :: rest)).findSome? tryFinal = some rest := by
  induction gs with
  | nil =>
    intro n _ _ rest
    have hsg : sgRender [] ++ fin :: rest = fin :: rest := by simp [sgRender]
    have hne : fin ≠ ';' := isFinal_ne_semi hfin
    cases n with
    | zero =>
      rw [hsg, sgRems, List.findSome?_cons, tryFinal, if_pos hfin]
    | succ m =>
      rw [hsg, sgRems, if_neg hne, List.findSome?_cons, tryFinal, if_pos hfin]
  | cons g gs' ih =>
    intro n hn hgs rest
    obtain ⟨m, rfl⟩ : ∃ m, n = m + 1 := ⟨n - 1, by simp at hn; omega⟩
    have hsg : sgRender (g :: gs') ++ fin :: rest =
        ';' :: (g ++ (sgRender gs' ++ fin :: rest)) := by
      simp [sgRender]
    rw [hsg, sgRems, if_pos rfl]
    have hld : leadDigits (g ++ (sgRender gs' ++ fin :: rest)) = g.length :=
      leadDigits_append (hgs g (List.mem_cons_self g gs')).2 (sgRender_head_not_digit hfd)
    obtain ⟨ks, hks⟩ :=
      digitTries_exact hld (Nat.zero_le _) (hgs g (List.mem_cons_self g gs')).1
    rw [hks, List.flatMap_cons, List.drop_left, List.append_assoc]
    exact findSomeQ_append_some
      (ih m (by simp at hn; omega) (fun x hx => hgs x (List.mem_cons_of_mem g hx)) rest) _

theorem paramRems_exact {fin : Char} (hfin : isFinal fin = true) (hfd : isDigitCh fin = false)
    (params : Option (List Char × List (List Char)))
    (hparams : match params with
      | none => True
      | some (d1, gs) =>
        (1 ≤ d1.length ∧ d1.length ≤ 4 ∧ ∀ c ∈ d1, isDigitCh c = true) ∧
        (∀ g ∈ gs, g.length ≤ 4 ∧ ∀ c ∈ g, isDigitCh c = true))
    (rest : List Char) :
    (paramRems (paramsRender params ++ fin :: rest)).findSome? tryFinal = some rest := by
  cases params with
  | none =>
    have hld : leadDigits (fin :: rest) = 0 := by
      rw [leadDigits, if_neg (by rw [hfd]; exact Bool.false_ne_true)]
    rw [paramsRender, List.nil_append, paramRems]
    rw [show digitTries 1 (fin :: rest) = [] from by rw [digitTries, hld]; rfl]
    rw [List.flatMap_nil, List.nil_append, List.findSome?_cons, tryFinal, if_pos hfin]
  | some p =>
    obtain ⟨d1, gs⟩ := p
    obtain ⟨⟨hd1, hd14, hd1d⟩, hgs⟩ := hparams
    have hasc : paramsRender (some (d1, gs)) ++ fin :: rest =
        d1 ++ (sgRender gs ++ fin :: rest) := by
      rw [paramsRender, List.append_assoc]
    rw [hasc, paramRems]
    have hld : leadDigits (d1 ++ (sgRender gs ++ fin :: rest)) = d1.length :=
      leadDigits_append hd1d (sgRender_head_not_digit hfd)
    obtain ⟨ks, hks⟩ := digitTries_exact hld hd1 hd14
    rw [hks, List.flatMap_cons, List.drop_left, List.append_assoc]
    refine findSomeQ_append_some (sgRems_exact hfin hfd gs _ ?_ hgs rest) _
    have h1 := sgRender_length_ge gs
    rw [List.length_append, List.length_append, List.length_cons]
    omega

theorem matchEscapeAt_render {e : AnsiEsc} (he : e.WF) (rest : List Char) :
    matchEscapeAt (e.render ++ rest) = some rest := by
  obtain ⟨hintro, hopens, hparams, hfin, hfd⟩ := he
  have hren : e.render ++ rest =
      e.esc :: (e.opens ++ (paramsRender e.params ++ e.fin :: rest)) := by
    rw [AnsiEsc.render]
    simp [List.append_assoc]
  rw [hren, matchEscapeAt, if_pos hintro]
  have hhd : ∀ c, (paramsRender e.params ++ e.fin :: rest).head? = some c →
      isOpener c = false := by
    intro c hc
    cases hp : e.params with
    | none =>
      rw [hp, paramsRender, List.nil_append, List.head?_cons] at hc
      rw [← Option.some.inj hc]
      exact isFinal_not_opener hfin
    | some p =>
      obtain ⟨d1, gs⟩ := p
      rw [hp] at hparams
      obtain ⟨⟨hd1, -, hd1d⟩, -⟩ := hparams
      cases d1 with
      | nil => exact absurd hd1 (by simp)
      | cons a ds =>
        rw [hp, paramsRender] at hc
        simp only [List.cons_append, List.append_assoc, List.head?_cons,
          Option.some.injEq] at hc
        rw [← hc]
        exact isDigit_not_opener (hd1d a (List.mem_cons_self a ds))
  obtain ⟨others, hop⟩ := openerRems_exact hopens hhd
  rw [hop, List.flatMap_cons]
  exact findSomeQ_append_some (paramRems_exact hfin hfd e.params hparams rest) _

/-! ## The strip pass on interleaved text -/

theorem stripA_nil (n : Nat) : stripA n [] = [] := by cases n <;> rfl

theorem stripA_clean_prefix {chunk : List Char} (hif : introFree chunk) :
    ∀ (n : Nat) (rest : List Char),
      stripA (chunk.length + n) (chunk ++ rest) = chunk ++ stripA n rest := by
  induction chunk with
  | nil => intro n rest; simp
  | cons c cs ih =>
    intro n rest
    rw [show (c :: cs).length + n = (cs.length + n) + 1 by rw [List.length_cons]; omega,
      List.cons_append]
    simp only [stripA, matchEscapeAt_not_intro _ (hif c (List.mem_cons_self c cs))]
    rw [ih (fun x hx => hif x (List.mem_cons_of_mem c hx)) n rest, List.cons_append]

theorem stripA_escape {e : AnsiEsc} (he : e.WF) (n : Nat) (rest : List Char) :
    stripA (n + 1) (e.render ++ rest) = stripA n rest := by
  have hm := matchEscapeAt_render he rest
  rw [AnsiEsc.render, List.cons_append] at hm ⊢
  simp only [stripA, hm]

theorem chunksOf_introFree {ps : List (List Char × AnsiEsc)} {tail : List Char}
    (hps : ∀ p ∈ ps, introFree p.1) (htail : introFree tail) :
    introFree (chunksOf ps tail) := by
  induction ps with
  | nil => exact htail
  | cons p ps ih =>
    intro c hc
    rw [chunksOf, List.mem_append] at hc
    rcases hc with hc | hc
    · exact hps p (List.mem_cons_self p ps) c hc
    · exact ih (fun q hq => hps q (List.mem_cons_of_mem p hq)) c hc

theorem stripA_weave (tail : List Char) (htail : introFree tail) :
    ∀ ps : List (List Char × AnsiEsc), (∀ p ∈ ps, introFree p.1 ∧ p.2.WF) →
    ∀ n, stripA ((weave ps tail).length + n) (weave ps tail) = chunksOf ps tail := by
  intro ps
  induction ps with
  | nil =>
    intro _ n
    have h := stripA_clean_prefix htail n []
    rw [List.append_nil, stripA_nil, List.append_nil] at h
    exact h
  | cons p ps ih =>
    intro hps n
    obtain ⟨chunk, e⟩ := p
    have hchunk : introFree chunk := (hps _ (List.mem_cons_self _ ps)).1
    have hwf : e.WF := (hps _ (List.mem_cons_self _ ps)).2
    have hps' : ∀ q ∈ ps, introFree q.1 ∧ q.2.WF :=
      fun q hq => hps q (List.mem_cons_of_mem _ hq)
    have hr1 : 1 ≤ e.render.length := by
      rw [AnsiEsc.render, List.length_cons]
      omega
    rw [weave, chunksOf]
    rw [show (chunk ++ e.render ++ weave ps tail).length + n =
        chunk.length + ((e.render.length - 1 + ((weave ps tail).length + n)) + 1) by
      simp only [List.length_append]; omega]
    rw [List.append_assoc, stripA_clean_prefix hchunk, stripA_escape hwf]
    rw [show e.render.length - 1 + ((weave ps tail).length + n) =
        (weave ps tail).length + (e.render.length - 1 + n) by omega]
    rw [ih hps' (e.render.length - 1 + n)]

/-! ## Trim stability of interleaved text -/

theorem dropWhile_eq_self_of_head {p : Char → Bool} {l : List Char}
    (h : ∀ c, l.head? = some c → p c = false) : l.dropWhile p = l := by
  cases l with
  | nil => rfl
  | cons c cs =>
    rw [List.dropWhile_cons, if_neg (by rw [h c rfl]; exact Bool.false_ne_true)]

theorem jsTrimL_id {l : List Char}
    (hh : ∀ c, l.head? = some c → isJsWS c = false)
    (hl : ∀ c, l.getLast? = some c → isJsWS c = false) : jsTrimL l = l := by
  rw [jsTrimL, dropWhile_eq_self_of_head hh,
    dropWhile_eq_self_of_head (fun c hc => hl c (by rw [← List.head?_reverse]; exact hc)),
    List.reverse_reverse]

theorem getLast_some_ne_nil {α : Type} {l : List α} {c : α} (h : l.getLast? = some c) :
    l ≠ [] := by
  intro he
  rw [he] at h
  exact Option.noConfusion h

theorem getLastQ_append_right {α : Type} {l₂ : List α} (l₁ : List α) (h : l₂ ≠ []) :
    (l₁ ++ l₂).getLast? = l₂.getLast? := by
  rw [← List.head?_reverse, ← List.head?_reverse, List.reverse_append]
  cases hrev : l₂.reverse with
  | nil => exact absurd (List.reverse_eq_nil_iff.mp hrev) h
  | cons x xs => rw [List.cons_append, List.head?_cons, List.head?_cons]

theorem weave_eq_append_tail (ps : List (List Char × AnsiEsc)) (tail : List Char) :
    weave ps tail = weave ps [] ++ tail := by
  induction ps with
  | nil => rfl
  | cons p ps ih =>
    obtain ⟨chunk, e⟩ := p
    rw [weave, weave, ih]
    simp [List.append_assoc]

theorem chunksOf_eq_append_tail (ps : List (List Char × AnsiEsc)) (tail : List Char) :
    chunksOf ps tail = chunksOf ps [] ++ tail := by
  induction ps with
  | nil => rfl
  | cons p ps ih =>
    obtain ⟨chunk, e⟩ := p
    rw [chunksOf, chunksOf, ih]
    simp [List.append_assoc]

theorem render_getLast (e : AnsiEsc) : e.render.getLast? = some e.fin := by
  rw [AnsiEsc.render,
    show e.esc :: (e.opens ++ paramsRender e.params ++ [e.fin]) =
      (e.esc :: (e.opens ++ paramsRender e.params)) ++ [e.fin] by simp,
    List.getLast?_concat]

theorem weave_head_not_ws (tail : List Char) :
    ∀ ps : List (List Char × AnsiEsc), (∀ p ∈ ps, introFree p.1 ∧ p.2.WF) →
    (∀ c, (chunksOf ps tail).head? = some c → isJsWS c = false) →
    ∀ c, (weave ps tail).head? = some c → isJsWS c = false := by
  intro ps
  induction ps with
  | nil => exact fun _ hh => hh
  | cons p ps _ =>
    intro hps hh c hc
    obtain ⟨chunk, e⟩ := p
    cases chunk with
    | nil =>
      rw [weave, List.nil_append, AnsiEsc.render, List.cons_append, List.head?_cons] at hc
      rw [← Option.some.inj hc]
      exact isIntro_not_ws (hps _ (List.mem_cons_self _ ps)).2.1
    | cons a cs =>
      rw [weave, List.append_assoc, List.cons_append, List.head?_cons] at hc
      apply hh
      rw [chunksOf, List.cons_append, List.head?_cons]
      exact hc

theorem weave_last_not_ws (tail : List Char) :
    ∀ ps : List (List Char × AnsiEsc), (∀ p ∈ ps, introFree p.1 ∧ p.2.WF) →
    (∀ c, (chunksOf ps tail).getLast? = some c → isJsWS c = false) →
    ∀ c, (weave ps tail).getLast? = some c → isJsWS c = false := by
  intro ps
  rcases eq_or_ne tail [] with htail | htail
  · subst htail
    induction ps with
    | nil => exact fun _ hl => hl
    | cons p ps ih =>
      intro hps hl c hc
      obtain ⟨chunk, e⟩ := p
      have hwf : e.WF := (hps _ (List.mem_cons_self _ ps)).2
      rcases eq_or_ne (weave ps []) [] with hw | hw
      · rw [weave, hw, List.append_nil,
          getLastQ_append_right chunk (by
            rw [AnsiEsc.render]; exact List.cons_ne_nil _ _),
          render_getLast] at hc
        rw [← Option.some.inj hc]
        exact isFinal_not_ws hwf.2.2.2.1
      · rw [weave, List.append_assoc,
          getLastQ_append_right chunk (by
            intro hab
            exact hw (List.append_eq_nil.mp hab).2),
          getLastQ_append_right e.render hw] at hc
        refine ih (fun q hq => hps q (List.mem_cons_of_mem _ hq)) ?_ c hc
        intro x hx
        apply hl
        rw [chunksOf, getLastQ_append_right chunk (getLast_some_ne_nil hx)]
        exact hx
  · intro _ hl c hc
    rw [weave_eq_append_tail, getLastQ_append_right _ htail] at hc
    apply hl
    rw [chunksOf_eq_append_tail, getLastQ_append_right _ htail]
    exact hc

/-! ## C8 -/

/-- C8: inserting well-formed ANSI (CSI-style) escape sequences anywhere
into a record whose escape-free text contains no introducer bytes and
neither starts nor ends with whitespace changes nothing: the cleanup
pass strips exactly the escapes, the cleaned record equals the cleaned
escape-free record, and the constructed critique — fields and (absence
of) format error — is identical. -/
theorem C8_escapes_stripped (ps : List (List Char × AnsiEsc)) (tail : List Char)
    (hps : ∀ p ∈ ps, introFree p.1 ∧ p.2.WF) (htail : introFree tail)
    (hh : ∀ c, (chunksOf ps tail).head? = some c → isJsWS c = false)
    (hl : ∀ c, (chunksOf ps tail).getLast? = some c → isJsWS c = false) :
    cleanRec (weave ps tail).asString = (chunksOf ps tail).asString ∧
    cleanRec (chunksOf ps tail).asString = (chunksOf ps tail).asString ∧
    mkCritique (cleanRec (weave ps tail).asString) =
      mkCritique (cleanRec (chunksOf ps tail).asString) := by
  have hc1 : cleanRec (weave ps tail).asString = (chunksOf ps tail).asString := by
    rw [cleanRec, show ((weave ps tail).asString).data = weave ps tail from rfl]
    rw [jsTrimL_id (weave_head_not_ws tail ps hps hh) (weave_last_not_ws tail ps hps hl)]
    rw [stripAnsi]
    have h := stripA_weave tail htail ps hps 0
    rw [Nat.add_zero] at h
    rw [h]
  have hc2 : cleanRec (chunksOf ps tail).asString = (chunksOf ps tail).asString := by
    rw [cleanRec, show ((chunksOf ps tail).asString).data = chunksOf ps tail from rfl]
    rw [jsTrimL_id hh hl, stripAnsi]
    have h := stripA_clean_prefix
      (chunksOf_introFree (fun p hp => (hps p hp).1) htail) 0 []
    rw [List.append_nil, stripA_nil, List.append_nil, Nat.add_zero] at h
    rw [h]
  exact ⟨hc1, hc2, by rw [hc1, hc2]⟩

theorem C8_escapes_stripped_witness :
    cleanRec "\u001b[31m2[>]5[>]3[>]a[>]b\u001b[0m" = "2[>]5[>]3[>]a[>]b" ∧
    mkCritique (cleanRec "\u001b[31m2[>]5[>]3[>]a[>]b\u001b[0m") =
      mkCritique (cleanRec "2[>]5[>]3[>]a[>]b") := by
  have hwf1 : (⟨'\u001b', ['['], some (['3', '1'], []), 'm'⟩ : AnsiEsc).WF :=
    ⟨by decide, by decide, ⟨⟨by decide, by decide, by decide⟩, by decide⟩, by decide, by decide⟩
  have hwf2 : (⟨'\u001b', ['['], some (['0'], []), 'm'⟩ : AnsiEsc).WF :=
    ⟨by decide, by decide, ⟨⟨by decide, by decide, by decide⟩, by decide⟩, by decide, by decide⟩
  have h := C8_escapes_stripped
    [([], ⟨'\u001b', ['['], some (['3', '1'], []), 'm'⟩),
     ("2[>]5[>]3[>]a[>]b".data, ⟨'\u001b', ['['], some (['0'], []), 'm'⟩)] []
    (by
      intro p hp
      cases hp with
      | head =>
        refine ⟨?_, hwf1⟩
        intro c hc
        cases hc
      | tail _ hp2 =>
        cases hp2 with
        | head =>
          refine ⟨?_, hwf2⟩
          show ∀ c ∈ "2[>]5[>]3[>]a[>]b".data, isIntro c = false
          decide
        | tail _ hp3 => cases hp3)
    (by intro c hc; cases hc)
    (by decide) (by decide)
  have hw : (weave
      [([], ⟨'\u001b', ['['], some (['3', '1'], []), 'm'⟩),
       ("2[>]5[>]3[>]a[>]b".data, ⟨'\u001b', ['['], some (['0'], []), 'm'⟩)]
      []).asString = "\u001b[31m2[>]5[>]3[>]a[>]b\u001b[0m" := rfl
  have hcof : (chunksOf
      [([], ⟨'\u001b', ['['], some (['3', '1'], []), 'm'⟩),
       ("2[>]5[>]3[>]a[>]b".data, ⟨'\u001b', ['['], some (['0'], []), 'm'⟩)]
      []).asString = "2[>]5[>]3[>]a[>]b" := rfl
  rw [hw, hcof] at h
  exact ⟨h.1, h.2.2⟩

end Perlcritic
